import Mathlib

/-!
Shallow embedding of the `recovery_registry` contract
(`src/contracts/recovery_registry/src/main.rs`).

The contract keeps all state in one flat dictionary whose string keys are a
short literal tag concatenated with the relevant identifier(s):
`"i"/"g"/"t"/"a" + account`, `"ra"/"rk"/"rc"/"ro"/"rf" + id`,
`"rp" + id + "_" + guardian`, `"ga"/"gr" + guardian`, and `"c"`.
Distinct tags can never produce colliding keys (the textual form of an
`AccountHash` starts with a capital letter while every tag is lower case, and
ids are digit strings), so the dictionary is modelled as one record holding a
function per logical field.  Fields the code always reads through
`unwrap_or(default)` are modelled as total functions returning that default;
fields whose absence the code observes (`is_some`, `unwrap_or_revert`) are
`Option`-valued.

Machine integers: the recovery-id counter is a `U256` whose `+` panics on
overflow (the uint crate panics in every build profile), modelled as the
`Fail.overflow` abort; the per-recovery approval counter is a `u8` and the
contract is compiled in release mode, so its increment wraps modulo 256.
Account hashes and public keys are opaque identities, modelled as `Nat`.

A failing entry point reverts and none of its writes survive (host-provided
all-or-nothing semantics).  In the source every revert happens before the
first write of the invocation, so each entry point is modelled as an
`Except Fail` value computed from the pre-state, and `stepState` keeps the
pre-state on any failure.
-/

namespace RecoveryRegistry

abbrev Account := Nat

abbrev PubKey := Nat

/-- User error codes of the contract (`enum Err` in `main.rs`). -/
inductive Err where
  | NotOwner
  | AlreadyInit
  | BadGuardians
  | BadThreshold
  | NotGuardian
  | RecoveryExists
  | NotFound
  | AlreadyApproved
  | NotApproved
  | NotInit
  | MissingDict
  deriving DecidableEq, Repr

/-- Numeric codes assigned in the source (`#[repr(u16)]`). -/
def Err.code : Err → Nat
  | .NotOwner => 1
  | .AlreadyInit => 2
  | .BadGuardians => 3
  | .BadThreshold => 4
  | .NotGuardian => 5
  | .RecoveryExists => 6
  | .NotFound => 7
  | .AlreadyApproved => 8
  | .NotApproved => 9
  | .NotInit => 10
  | .MissingDict => 11

/-- How an invocation aborts: a user revert, or the `U256` addition panic. -/
inductive Fail where
  | user (e : Err)
  | overflow
  deriving DecidableEq, Repr

def U256_LIMIT : Nat := 2 ^ 256

/-- Pointwise function update: one dictionary write. -/
def upd {α β : Type} [DecidableEq α] (f : α → β) (a : α) (v : β) : α → β :=
  fun x => if x = a then v else f x

/-- The dictionary contents, one field per key tag. -/
@[ext] structure State where
  /-- key `"c"`: global recovery-id counter (`U256`, read default 0). -/
  counter : Nat
  /-- key `"i" + acc`: initialized flag (read default `false`). -/
  inited : Account → Bool
  /-- key `"g" + acc`: guardian list. -/
  guardians : Account → Option (List Account)
  /-- key `"t" + acc`: threshold (`u8`). -/
  threshold : Account → Option Nat
  /-- key `"a" + acc`: open-recovery marker (the recovery id). -/
  activeId : Account → Option Nat
  /-- key `"ra" + id`: target account of a recovery. -/
  recTarget : Nat → Option Account
  /-- key `"rk" + id`: proposed new credential. -/
  recKey : Nat → Option PubKey
  /-- key `"rc" + id`: approval counter (`u8`, read default 0). -/
  recCnt : Nat → Nat
  /-- key `"ro" + id`: approved flag (read default `false`). -/
  recApproved : Nat → Bool
  /-- key `"rf" + id`: finalized flag. -/
  recFinalized : Nat → Bool
  /-- key `"rp" + id + "_" + g`: per-guardian approval mark (read default `false`). -/
  approvedBy : Nat → Account → Bool
  /-- key `"ga" + g`: accounts the guardian protects (read default `[]`). -/
  protectedOf : Account → List Account
  /-- key `"gr" + g`: active recovery ids for the guardian (read default `[]`). -/
  recoveriesOf : Account → List Nat

/-- The store right after `init_storage` creates the empty dictionary. -/
def init_state : State where
  counter := 0
  inited := fun _ => false
  guardians := fun _ => none
  threshold := fun _ => none
  activeId := fun _ => none
  recTarget := fun _ => none
  recKey := fun _ => none
  recCnt := fun _ => 0
  recApproved := fun _ => false
  recFinalized := fun _ => false
  approvedBy := fun _ _ => false
  protectedOf := fun _ => []
  recoveriesOf := fun _ => []

/-- The reverse-mapping loop of `init_guardians`: for each guardian, append
`acc` to its protected list unless already present. -/
def addProtected (acc : Account) (guards : List Account)
    (f : Account → List Account) : Account → List Account :=
  guards.foldl (fun f g => if acc ∈ f g then f else upd f g (f g ++ [acc])) f

/-- The writes of a successful `init_guardians`. -/
def applyInit (acc : Account) (guards : List Account) (thresh : Nat)
    (s : State) : State :=
  { s with
    guardians := upd s.guardians acc (some guards)
    threshold := upd s.threshold acc (some thresh)
    inited := upd s.inited acc true
    protectedOf := addProtected acc guards s.protectedOf }

/-- `init_guardians` entry point.  `thresh` is the value of the `u8`
argument. -/
def init_guardians (caller acc : Account) (guards : List Account)
    (thresh : Nat) (s : State) : Except Fail State :=
  if caller ≠ acc then .error (.user .NotOwner)
  else if guards.length < 2 then .error (.user .BadGuardians)
  else if thresh = 0 ∨ guards.length < thresh then .error (.user .BadThreshold)
  else if s.inited acc = true then .error (.user .AlreadyInit)
  else .ok (applyInit acc guards thresh s)

/-- The reverse-mapping loop of `start_recovery`: for each guardian, append
the new id to its active-recoveries list unless already present. -/
def addRecovery (id : Nat) (guards : List Account)
    (f : Account → List Nat) : Account → List Nat :=
  guards.foldl (fun f g => if id ∈ f g then f else upd f g (f g ++ [id])) f

/-- The writes of a successful `start_recovery`; the new id is
`s.counter + 1`. -/
def applyStart (acc : Account) (nk : PubKey) (s : State) : State :=
  let id := s.counter + 1
  { s with
    counter := id
    recTarget := upd s.recTarget id (some acc)
    recKey := upd s.recKey id (some nk)
    recCnt := upd s.recCnt id 0
    recApproved := upd s.recApproved id false
    activeId := upd s.activeId acc (some id)
    recoveriesOf := addRecovery id ((s.guardians acc).getD []) s.recoveriesOf }

/-- `start_recovery` entry point; returns the allocated id. -/
def start_recovery (acc : Account) (nk : PubKey) (s : State) :
    Except Fail (Nat × State) :=
  if s.inited acc = false then .error (.user .NotInit)
  else if (s.activeId acc).isSome then .error (.user .RecoveryExists)
  else if U256_LIMIT ≤ s.counter + 1 then .error .overflow
  else .ok (s.counter + 1, applyStart acc nk s)

/-- The writes of a successful `approve`: mark the caller, store the wrapped
incremented counter, and set the approved flag when the counter reaches the
threshold (`unwrap_or(2)` fallback as in the source). -/
def applyApprove (caller : Account) (id : Nat) (acc : Account)
    (s : State) : State :=
  let cnt := (s.recCnt id + 1) % 256
  let thresh := (s.threshold acc).getD 2
  { s with
    approvedBy := upd s.approvedBy id (upd (s.approvedBy id) caller true)
    recCnt := upd s.recCnt id cnt
    recApproved := if thresh ≤ cnt then upd s.recApproved id true
      else s.recApproved }

/-- `approve` entry point. -/
def approve (caller : Account) (id : Nat) (s : State) : Except Fail State :=
  match s.recTarget id with
  | none => .error (.user .NotFound)
  | some acc =>
    match s.guardians acc with
    | none => .error (.user .NotGuardian)
    | some guards =>
      if caller ∈ guards then
        if s.approvedBy id caller = true then .error (.user .AlreadyApproved)
        else .ok (applyApprove caller id acc s)
      else .error (.user .NotGuardian)

/-- The removal loop of `finalize` (`retain(|&r| r != id)` per guardian). -/
def removeRecovery (id : Nat) (guards : List Account)
    (f : Account → List Nat) : Account → List Nat :=
  guards.foldl (fun f g => upd f g ((f g).filter (fun r => r != id))) f

/-- The writes of a successful `finalize`. -/
def applyFinalize (id : Nat) (acc : Account) (s : State) : State :=
  { s with
    recoveriesOf := removeRecovery id ((s.guardians acc).getD [])
      s.recoveriesOf
    recFinalized := upd s.recFinalized id true }

/-- `finalize` entry point. -/
def finalize (id : Nat) (s : State) : Except Fail State :=
  if s.recApproved id = false then .error (.user .NotApproved)
  else
    match s.recTarget id with
    | none => .error (.user .NotFound)
    | some acc => .ok (applyFinalize id acc s)

/-- `is_approved` query: reads `"ro" + id` with default `false`; never fails. -/
def is_approved (id : Nat) (s : State) : Bool :=
  s.recApproved id

/-- `has_guardians` query: reads `"i" + acc` with default `false`. -/
def has_guardians (acc : Account) (s : State) : Bool :=
  s.inited acc

/-- `get_guardians` query: fails with `NotInit` when the list is absent. -/
def get_guardians (acc : Account) (s : State) : Except Fail (List Account) :=
  match s.guardians acc with
  | none => .error (.user .NotInit)
  | some g => .ok g

/-- `get_recoveries_for_guardian` query (default `[]`). -/
def get_recoveries_for_guardian (g : Account) (s : State) : List Nat :=
  s.recoveriesOf g

/-- `get_protected_accounts` query (default `[]`). -/
def get_protected_accounts (g : Account) (s : State) : List Account :=
  s.protectedOf g

/-- One external invocation of the contract, arguments included.  The
threshold argument is a `u8` on the wire, hence `Fin 256`. -/
inductive Op where
  | initG (caller acc : Account) (guards : List Account) (thresh : Fin 256)
  | startR (acc : Account) (nk : PubKey)
  | approveR (caller : Account) (id : Nat)
  | finalizeR (id : Nat)
  | getGuardiansQ (acc : Account)
  | hasGuardiansQ (acc : Account)
  | isApprovedQ (id : Nat)
  | getRecoveriesQ (g : Account)
  | getProtectedQ (g : Account)

/-- State after one invocation: a failed invocation leaves the store
untouched (the host discards its writes); queries never write. -/
def stepState (op : Op) (s : State) : State :=
  match op with
  | .initG c a gs t =>
    match init_guardians c a gs t.val s with
    | .ok s1 => s1
    | .error _ => s
  | .startR a k =>
    match start_recovery a k s with
    | .ok x => x.2
    | .error _ => s
  | .approveR c id =>
    match approve c id s with
    | .ok s1 => s1
    | .error _ => s
  | .finalizeR id =>
    match finalize id s with
    | .ok s1 => s1
    | .error _ => s
  | _ => s

/-- Run a sequence of invocations. -/
def run (s : State) (ops : List Op) : State :=
  ops.foldl (fun s op => stepState op s) s

/-- States the deployed contract can actually be in. -/
def Reachable (s : State) : Prop :=
  ∃ ops : List Op, run init_state ops = s

/-- Whether an invocation is a `start_recovery` call. -/
def Op.isStart : Op → Bool
  | .startR _ _ => true
  | _ => false

/-- Whether an invocation is an `init_guardians` call for account `A`. -/
def Op.isInitFor (op : Op) (A : Account) : Bool :=
  match op with
  | .initG _ a _ _ => a == A
  | _ => false

/-! ### Concrete traces used to instantiate the claim theorems -/

/-- Account 1 guarded by 2 and 3 with threshold 1; recovery 1 started and
approved by guardian 2 (so its approved flag is set). -/
def wOps1 : List Op := [.initG 1 1 [2, 3] 1, .startR 1 7, .approveR 2 1]

def wState1 : State := run init_state wOps1

/-- `wState1` after `finalize 1`. -/
def wFinSt : State := stepState (.finalizeR 1) wState1

/-- Two accounts initialized, no recovery yet. -/
def w3a : State := run init_state [.initG 1 1 [2, 3] 1, .initG 4 4 [5, 6] 1]

def w3b : State := stepState (.startR 1 7) w3a

def w3c : State := stepState (.startR 4 8) w3b

/-- Account 1 guarded by 2 and 3 with threshold 2; recovery 1 open. -/
def w5a : State := run init_state [.initG 1 1 [2, 3] 2, .startR 1 7]

def w5b : State := stepState (.approveR 2 1) w5a

def w7a : State := stepState (.initG 1 1 [2, 3] 2) init_state

def w8a : State := run init_state [.initG 1 1 [2, 3] 1, .startR 1 7]

/-- 256 distinct guardians for account 1. -/
def cexGuards : List Account := (List.range 256).map (fun i => i + 10)

/-- Account 1 with 256 guardians and threshold 1; recovery 1 started, then
approved once by each of the 256 guardians. -/
def cexOps : List Op :=
  .initG 1 1 cexGuards 1 :: .startR 1 99 ::
    (List.range 256).map (fun i => .approveR (i + 10) 1)

def cexState : State := run init_state cexOps

/-! ### Basic lemmas about single writes and the reverse-index loops -/

@[simp] theorem upd_same {α β : Type} [DecidableEq α] (f : α → β) (a : α)
    (v : β) : upd f a v a = v := by
  simp [upd]

theorem upd_apply {α β : Type} [DecidableEq α] (f : α → β) (a : α) (v : β)
    (x : α) : upd f a v x = if x = a then v else f x := rfl

theorem upd_ne {α β : Type} [DecidableEq α] (f : α → β) {a x : α} (v : β)
    (h : x ≠ a) : upd f a v x = f x := by
  simp [upd, h]

theorem upd_self {α β : Type} [DecidableEq α] (f : α → β) (a : α) {v : β}
    (h : f a = v) : upd f a v = f := by
  funext x
  by_cases hx : x = a
  · subst hx; simp [upd, h]
  · simp [upd, hx]

theorem addProtected_cons (acc g : Account) (rest : List Account)
    (f : Account → List Account) :
    addProtected acc (g :: rest) f =
      addProtected acc rest
        (if acc ∈ f g then f else upd f g (f g ++ [acc])) := rfl

theorem addProtected_mono (acc : Account) (guards : List Account)
    (f : Account → List Account) (x : Account) (h : acc ∈ f x) :
    acc ∈ addProtected acc guards f x := by
  induction guards generalizing f with
  | nil => exact h
  | cons g rest ih =>
    rw [addProtected_cons]
    apply ih
    by_cases hg : acc ∈ f g
    · rwa [if_pos hg]
    · rw [if_neg hg]
      by_cases hx : x = g
      · subst hx
        rw [upd_same]
        exact List.mem_append_left _ h
      · rwa [upd_ne _ _ hx]

theorem addProtected_mem_of (acc : Account) (guards : List Account)
    (f : Account → List Account) (x : Account) (hx : x ∈ guards) :
    acc ∈ addProtected acc guards f x := by
  induction guards generalizing f with
  | nil => cases hx
  | cons g rest ih =>
    rw [addProtected_cons]
    rcases List.mem_cons.mp hx with hx | hx
    · subst hx
      apply addProtected_mono
      by_cases hg : acc ∈ f x
      · rwa [if_pos hg]
      · rw [if_neg hg, upd_same]
        exact List.mem_append_right _ (List.mem_singleton.mpr rfl)
    · exact ih _ hx

theorem addRecovery_cons (id : Nat) (g : Account) (rest : List Account)
    (f : Account → List Nat) :
    addRecovery id (g :: rest) f =
      addRecovery id rest
        (if id ∈ f g then f else upd f g (f g ++ [id])) := rfl

theorem addRecovery_mem_imp (id : Nat) (guards : List Account)
    (f : Account → List Nat) (x : Account) (j : Nat)
    (h : j ∈ addRecovery id guards f x) :
    j ∈ f x ∨ (j = id ∧ x ∈ guards) := by
  induction guards generalizing f with
  | nil => exact Or.inl h
  | cons g rest ih =>
    rw [addRecovery_cons] at h
    rcases ih _ h with h' | ⟨rfl, hx⟩
    · by_cases hg : id ∈ f g
      · rw [if_pos hg] at h'
        exact Or.inl h'
      · rw [if_neg hg] at h'
        by_cases hx : x = g
        · subst hx
          rw [upd_same] at h'
          rcases List.mem_append.mp h' with h' | h'
          · exact Or.inl h'
          · exact Or.inr ⟨List.mem_singleton.mp h', List.mem_cons_self _ _⟩
        · rw [upd_ne _ _ hx] at h'
          exact Or.inl h'
    · exact Or.inr ⟨rfl, List.mem_cons_of_mem _ hx⟩

theorem removeRecovery_cons (id : Nat) (g : Account) (rest : List Account)
    (f : Account → List Nat) :
    removeRecovery id (g :: rest) f =
      removeRecovery id rest
        (upd f g ((f g).filter (fun r => r != id))) := rfl

theorem removeRecovery_subset (id : Nat) (guards : List Account)
    (f : Account → List Nat) (x : Account) (j : Nat)
    (h : j ∈ removeRecovery id guards f x) : j ∈ f x := by
  induction guards generalizing f with
  | nil => exact h
  | cons g rest ih =>
    rw [removeRecovery_cons] at h
    have h' := ih _ h
    by_cases hx : x = g
    · subst hx
      rw [upd_same] at h'
      exact (List.mem_filter.mp h').1
    · rwa [upd_ne _ _ hx] at h'

theorem removeRecovery_not_mem (id : Nat) (guards : List Account)
    (f : Account → List Nat) (x : Account) (hx : x ∈ guards) :
    id ∉ removeRecovery id guards f x := by
  induction guards generalizing f with
  | nil => cases hx
  | cons g rest ih =>
    rw [removeRecovery_cons]
    rcases List.mem_cons.mp hx with hx | hx
    · subst hx
      intro hmem
      have h' := removeRecovery_subset id rest _ x id hmem
      rw [upd_same] at h'
      have := (List.mem_filter.mp h').2
      simp at this
    · exact ih _ hx

theorem removeRecovery_apply_of_not_mem (id : Nat) (guards : List Account)
    (f : Account → List Nat) (x : Account) (hx : x ∉ guards) :
    removeRecovery id guards f x = f x := by
  induction guards generalizing f with
  | nil => rfl
  | cons g rest ih =>
    have hxg : x ≠ g := fun h => hx (h ▸ List.mem_cons_self g rest)
    have hxr : x ∉ rest := fun h => hx (List.mem_cons_of_mem _ h)
    rw [removeRecovery_cons, ih _ hxr, upd_ne _ _ hxg]

theorem removeRecovery_eq_self (id : Nat) (guards : List Account)
    (f : Account → List Nat) (h : ∀ g, id ∉ f g) :
    removeRecovery id guards f = f := by
  induction guards generalizing f with
  | nil => rfl
  | cons g rest ih =>
    rw [removeRecovery_cons]
    have hfilter : (f g).filter (fun r => r != id) = f g := by
      apply List.filter_eq_self.mpr
      intro a ha
      have : a ≠ id := fun hc => h g (hc ▸ ha)
      simpa using this
    rw [hfilter, upd_self _ _ rfl]
    exact ih f h

/-! ### Shape of each entry point's results -/

theorem init_ok {caller acc : Account} {guards : List Account} {thresh : Nat}
    {s s1 : State} (h : init_guardians caller acc guards thresh s = .ok s1) :
    s1 = applyInit acc guards thresh s ∧ caller = acc ∧
      2 ≤ guards.length ∧ 1 ≤ thresh ∧ thresh ≤ guards.length ∧
      s.inited acc = false := by
  unfold init_guardians at h
  split at h
  · exact absurd h (by simp)
  next h1 =>
  split at h
  · exact absurd h (by simp)
  next h2 =>
  split at h
  · exact absurd h (by simp)
  next h3 =>
  split at h
  · exact absurd h (by simp)
  next h4 =>
  refine ⟨(Except.ok.injEq _ _).mp h |>.symm, not_not.mp h1, by omega, ?_, ?_, ?_⟩
  · omega
  · omega
  · simpa using h4

theorem start_ok {acc : Account} {nk : PubKey} {s : State} {p : Nat × State}
    (h : start_recovery acc nk s = .ok p) :
    p.1 = s.counter + 1 ∧ p.2 = applyStart acc nk s ∧
      s.inited acc = true ∧ s.activeId acc = none ∧
      s.counter + 1 < U256_LIMIT := by
  unfold start_recovery at h
  split at h
  · exact absurd h (by simp)
  next h1 =>
  split at h
  · exact absurd h (by simp)
  next h2 =>
  split at h
  · exact absurd h (by simp)
  next h3 =>
  have hp := (Except.ok.injEq _ _).mp h
  refine ⟨by rw [← hp], by rw [← hp], ?_, ?_, by omega⟩
  · cases hb : s.inited acc
    · exact absurd hb h1
    · rfl
  · exact Option.not_isSome_iff_eq_none.mp h2

theorem approve_ok {caller : Account} {id : Nat} {s s1 : State}
    (h : approve caller id s = .ok s1) :
    ∃ acc guards, s.recTarget id = some acc ∧ s.guardians acc = some guards ∧
      caller ∈ guards ∧ s.approvedBy id caller = false ∧
      s1 = applyApprove caller id acc s := by
  unfold approve at h
  split at h
  · exact absurd h (by simp)
  next acc htar =>
  split at h
  · exact absurd h (by simp)
  next guards hg =>
  split at h
  next hmem =>
    split at h
    · exact absurd h (by simp)
    next happ =>
      exact ⟨acc, guards, htar, hg, hmem,
        by simpa using happ, ((Except.ok.injEq _ _).mp h).symm⟩
  · exact absurd h (by simp)

theorem finalize_ok {id : Nat} {s s1 : State}
    (h : finalize id s = .ok s1) :
    ∃ acc, s.recApproved id = true ∧ s.recTarget id = some acc ∧
      s1 = applyFinalize id acc s := by
  unfold finalize at h
  split at h
  · exact absurd h (by simp)
  next h1 =>
  split at h
  · exact absurd h (by simp)
  next acc htar =>
  exact ⟨acc, by simpa using h1, htar, ((Except.ok.injEq _ _).mp h).symm⟩

theorem finalize_of_approved {id : Nat} {s : State} {acc : Account}
    (hro : s.recApproved id = true) (htar : s.recTarget id = some acc) :
    finalize id s = .ok (applyFinalize id acc s) := by
  unfold finalize
  rw [hro]
  simp [htar]

/-! ### Field-level description of each successful write set -/

@[simp] theorem applyInit_counter (acc : Account) (gs : List Account)
    (t : Nat) (s : State) : (applyInit acc gs t s).counter = s.counter := rfl

@[simp] theorem applyInit_inited (acc : Account) (gs : List Account)
    (t : Nat) (s : State) :
    (applyInit acc gs t s).inited = upd s.inited acc true := rfl

@[simp] theorem applyInit_guardians (acc : Account) (gs : List Account)
    (t : Nat) (s : State) :
    (applyInit acc gs t s).guardians = upd s.guardians acc (some gs) := rfl

@[simp] theorem applyInit_threshold (acc : Account) (gs : List Account)
    (t : Nat) (s : State) :
    (applyInit acc gs t s).threshold = upd s.threshold acc (some t) := rfl

@[simp] theorem applyInit_activeId (acc : Account) (gs : List Account)
    (t : Nat) (s : State) : (applyInit acc gs t s).activeId = s.activeId := rfl

@[simp] theorem applyInit_recTarget (acc : Account) (gs : List Account)
    (t : Nat) (s : State) :
    (applyInit acc gs t s).recTarget = s.recTarget := rfl

@[simp] theorem applyInit_recKey (acc : Account) (gs : List Account)
    (t : Nat) (s : State) : (applyInit acc gs t s).recKey = s.recKey := rfl

@[simp] theorem applyInit_recCnt (acc : Account) (gs : List Account)
    (t : Nat) (s : State) : (applyInit acc gs t s).recCnt = s.recCnt := rfl

@[simp] theorem applyInit_recApproved (acc : Account) (gs : List Account)
    (t : Nat) (s : State) :
    (applyInit acc gs t s).recApproved = s.recApproved := rfl

@[simp] theorem applyInit_recFinalized (acc : Account) (gs : List Account)
    (t : Nat) (s : State) :
    (applyInit acc gs t s).recFinalized = s.recFinalized := rfl

@[simp] theorem applyInit_approvedBy (acc : Account) (gs : List Account)
    (t : Nat) (s : State) :
    (applyInit acc gs t s).approvedBy = s.approvedBy := rfl

@[simp] theorem applyInit_protectedOf (acc : Account) (gs : List Account)
    (t : Nat) (s : State) :
    (applyInit acc gs t s).protectedOf =
      addProtected acc gs s.protectedOf := rfl

@[simp] theorem applyInit_recoveriesOf (acc : Account) (gs : List Account)
    (t : Nat) (s : State) :
    (applyInit acc gs t s).recoveriesOf = s.recoveriesOf := rfl

@[simp] theorem applyStart_counter (acc : Account) (nk : PubKey) (s : State) :
    (applyStart acc nk s).counter = s.counter + 1 := rfl

@[simp] theorem applyStart_inited (acc : Account) (nk : PubKey) (s : State) :
    (applyStart acc nk s).inited = s.inited := rfl

@[simp] theorem applyStart_guardians (acc : Account) (nk : PubKey)
    (s : State) : (applyStart acc nk s).guardians = s.guardians := rfl

@[simp] theorem applyStart_threshold (acc : Account) (nk : PubKey)
    (s : State) : (applyStart acc nk s).threshold = s.threshold := rfl

@[simp] theorem applyStart_activeId (acc : Account) (nk : PubKey)
    (s : State) :
    (applyStart acc nk s).activeId =
      upd s.activeId acc (some (s.counter + 1)) := rfl

@[simp] theorem applyStart_recTarget (acc : Account) (nk : PubKey)
    (s : State) :
    (applyStart acc nk s).recTarget =
      upd s.recTarget (s.counter + 1) (some acc) := rfl

@[simp] theorem applyStart_recKey (acc : Account) (nk : PubKey) (s : State) :
    (applyStart acc nk s).recKey =
      upd s.recKey (s.counter + 1) (some nk) := rfl

@[simp] theorem applyStart_recCnt (acc : Account) (nk : PubKey) (s : State) :
    (applyStart acc nk s).recCnt = upd s.recCnt (s.counter + 1) 0 := rfl

@[simp] theorem applyStart_recApproved (acc : Account) (nk : PubKey)
    (s : State) :
    (applyStart acc nk s).recApproved =
      upd s.recApproved (s.counter + 1) false := rfl

@[simp] theorem applyStart_recFinalized (acc : Account) (nk : PubKey)
    (s : State) : (applyStart acc nk s).recFinalized = s.recFinalized := rfl

@[simp] theorem applyStart_approvedBy (acc : Account) (nk : PubKey)
    (s : State) : (applyStart acc nk s).approvedBy = s.approvedBy := rfl

@[simp] theorem applyStart_protectedOf (acc : Account) (nk : PubKey)
    (s : State) : (applyStart acc nk s).protectedOf = s.protectedOf := rfl

@[simp] theorem applyStart_recoveriesOf (acc : Account) (nk : PubKey)
    (s : State) :
    (applyStart acc nk s).recoveriesOf =
      addRecovery (s.counter + 1) ((s.guardians acc).getD [])
        s.recoveriesOf := rfl

@[simp] theorem applyApprove_counter (c : Account) (id : Nat) (acc : Account)
    (s : State) : (applyApprove c id acc s).counter = s.counter := rfl

@[simp] theorem applyApprove_inited (c : Account) (id : Nat) (acc : Account)
    (s : State) : (applyApprove c id acc s).inited = s.inited := rfl

@[simp] theorem applyApprove_guardians (c : Account) (id : Nat)
    (acc : Account) (s : State) :
    (applyApprove c id acc s).guardians = s.guardians := rfl

@[simp] theorem applyApprove_threshold (c : Account) (id : Nat)
    (acc : Account) (s : State) :
    (applyApprove c id acc s).threshold = s.threshold := rfl

@[simp] theorem applyApprove_activeId (c : Account) (id : Nat)
    (acc : Account) (s : State) :
    (applyApprove c id acc s).activeId = s.activeId := rfl

@[simp] theorem applyApprove_recTarget (c : Account) (id : Nat)
    (acc : Account) (s : State) :
    (applyApprove c id acc s).recTarget = s.recTarget := rfl

@[simp] theorem applyApprove_recKey (c : Account) (id : Nat) (acc : Account)
    (s : State) : (applyApprove c id acc s).recKey = s.recKey := rfl

@[simp] theorem applyApprove_recCnt (c : Account) (id : Nat) (acc : Account)
    (s : State) :
    (applyApprove c id acc s).recCnt =
      upd s.recCnt id ((s.recCnt id + 1) % 256) := rfl

@[simp] theorem applyApprove_recApproved (c : Account) (id : Nat)
    (acc : Account) (s : State) :
    (applyApprove c id acc s).recApproved =
      if (s.threshold acc).getD 2 ≤ (s.recCnt id + 1) % 256
      then upd s.recApproved id true else s.recApproved := rfl

@[simp] theorem applyApprove_recFinalized (c : Account) (id : Nat)
    (acc : Account) (s : State) :
    (applyApprove c id acc s).recFinalized = s.recFinalized := rfl

@[simp] theorem applyApprove_approvedBy (c : Account) (id : Nat)
    (acc : Account) (s : State) :
    (applyApprove c id acc s).approvedBy =
      upd s.approvedBy id (upd (s.approvedBy id) c true) := rfl

@[simp] theorem applyApprove_protectedOf (c : Account) (id : Nat)
    (acc : Account) (s : State) :
    (applyApprove c id acc s).protectedOf = s.protectedOf := rfl

@[simp] theorem applyApprove_recoveriesOf (c : Account) (id : Nat)
    (acc : Account) (s : State) :
    (applyApprove c id acc s).recoveriesOf = s.recoveriesOf := rfl

@[simp] theorem applyFinalize_counter (id : Nat) (acc : Account) (s : State) :
    (applyFinalize id acc s).counter = s.counter := rfl

@[simp] theorem applyFinalize_inited (id : Nat) (acc : Account) (s : State) :
    (applyFinalize id acc s).inited = s.inited := rfl

@[simp] theorem applyFinalize_guardians (id : Nat) (acc : Account)
    (s : State) : (applyFinalize id acc s).guardians = s.guardians := rfl

@[simp] theorem applyFinalize_threshold (id : Nat) (acc : Account)
    (s : State) : (applyFinalize id acc s).threshold = s.threshold := rfl

@[simp] theorem applyFinalize_activeId (id : Nat) (acc : Account)
    (s : State) : (applyFinalize id acc s).activeId = s.activeId := rfl

@[simp] theorem applyFinalize_recTarget (id : Nat) (acc : Account)
    (s : State) : (applyFinalize id acc s).recTarget = s.recTarget := rfl

@[simp] theorem applyFinalize_recKey (id : Nat) (acc : Account) (s : State) :
    (applyFinalize id acc s).recKey = s.recKey := rfl

@[simp] theorem applyFinalize_recCnt (id : Nat) (acc : Account) (s : State) :
    (applyFinalize id acc s).recCnt = s.recCnt := rfl

@[simp] theorem applyFinalize_recApproved (id : Nat) (acc : Account)
    (s : State) :
    (applyFinalize id acc s).recApproved = s.recApproved := rfl

@[simp] theorem applyFinalize_recFinalized (id : Nat) (acc : Account)
    (s : State) :
    (applyFinalize id acc s).recFinalized =
      upd s.recFinalized id true := rfl

@[simp] theorem applyFinalize_approvedBy (id : Nat) (acc : Account)
    (s : State) :
    (applyFinalize id acc s).approvedBy = s.approvedBy := rfl

@[simp] theorem applyFinalize_protectedOf (id : Nat) (acc : Account)
    (s : State) :
    (applyFinalize id acc s).protectedOf = s.protectedOf := rfl

@[simp] theorem applyFinalize_recoveriesOf (id : Nat) (acc : Account)
    (s : State) :
    (applyFinalize id acc s).recoveriesOf =
      removeRecovery id ((s.guardians acc).getD []) s.recoveriesOf := rfl

/-! ### The reachable-state invariant -/

/-- Facts that hold in every state the deployed contract can reach. -/
structure Inv (s : State) : Prop where
  /-- An initialized account has a well-formed config: the guardian list and
  threshold were stored together, with the checked bounds (the threshold is a
  `u8`, hence at most 255). -/
  acct : ∀ A, s.inited A = true →
    ∃ gs t, s.guardians A = some gs ∧ s.threshold A = some t ∧
      2 ≤ gs.length ∧ 1 ≤ t ∧ t ≤ gs.length ∧ t ≤ 255
  /-- An uninitialized account has no config and no open-recovery marker. -/
  not_inited : ∀ A, s.inited A = false →
    s.guardians A = none ∧ s.threshold A = none ∧ s.activeId A = none
  /-- A recovery's target account is initialized and carries a marker. -/
  target_inited : ∀ id A, s.recTarget id = some A →
    s.inited A = true ∧ (s.activeId A).isSome = true
  /-- Ids above the counter are untouched. -/
  fresh : ∀ id, s.counter < id →
    s.recTarget id = none ∧ s.recFinalized id = false
  /-- Approval accounting: the per-guardian marks form a finite set `l`; the
  stored `u8` counter is its size modulo 256, and the approved flag is set
  exactly when the size reached the target's threshold. -/
  approvals : ∀ id, ∃ l : List Account, l.Nodup ∧
    (∀ g, s.approvedBy id g = true ↔ g ∈ l) ∧
    s.recCnt id = l.length % 256 ∧
    (s.recTarget id = none → l = [] ∧ s.recApproved id = false) ∧
    (∀ A t, s.recTarget id = some A → s.threshold A = some t →
      (s.recApproved id = true ↔ t ≤ l.length))
  /-- A guardian's active-recovery list only holds ids of recoveries whose
  target the guardian protects. -/
  mem_rec : ∀ id g, id ∈ s.recoveriesOf g →
    ∃ A gs, s.recTarget id = some A ∧ s.guardians A = some gs ∧ g ∈ gs
  /-- A finalized recovery is in no guardian's active-recovery list. -/
  fin_removed : ∀ id, s.recFinalized id = true → ∀ g, id ∉ s.recoveriesOf g

theorem Inv_init_state : Inv init_state := by
  constructor
  · intro A h; exact absurd h (by simp [init_state])
  · intro A _; exact ⟨rfl, rfl, rfl⟩
  · intro id A h; exact absurd h (by simp [init_state])
  · intro id _; exact ⟨rfl, rfl⟩
  · intro id
    exact ⟨[], List.nodup_nil, by simp [init_state], by simp [init_state],
      fun h => ⟨rfl, rfl⟩, fun A t h => by simp [init_state] at h⟩
  · intro id g h; exact absurd h (by simp [init_state])
  · intro id h; exact absurd h (by simp [init_state])

theorem Inv_applyInit {s : State} (hInv : Inv s) (acc : Account)
    (gs : List Account) (t : Nat) (hlen : 2 ≤ gs.length) (ht1 : 1 ≤ t)
    (ht2 : t ≤ gs.length) (ht3 : t ≤ 255) (hni : s.inited acc = false) :
    Inv (applyInit acc gs t s) := by
  constructor
  · intro A hA
    simp only [applyInit_inited, applyInit_guardians, applyInit_threshold] at *
    by_cases hAacc : A = acc
    · subst hAacc
      exact ⟨gs, t, by simp, by simp, hlen, ht1, ht2, ht3⟩
    · rw [upd_ne _ _ hAacc] at hA
      obtain ⟨gs', t', h1, h2, h3⟩ := hInv.acct A hA
      exact ⟨gs', t', by rwa [upd_ne _ _ hAacc], by rwa [upd_ne _ _ hAacc], h3⟩
  · intro A hA
    simp only [applyInit_inited, applyInit_guardians, applyInit_threshold,
      applyInit_activeId] at *
    by_cases hAacc : A = acc
    · subst hAacc; simp at hA
    · rw [upd_ne _ _ hAacc] at hA
      obtain ⟨h1, h2, h3⟩ := hInv.not_inited A hA
      exact ⟨by rwa [upd_ne _ _ hAacc], by rwa [upd_ne _ _ hAacc], h3⟩
  · intro id A hA
    simp only [applyInit_recTarget, applyInit_inited, applyInit_activeId] at *
    obtain ⟨h1, h2⟩ := hInv.target_inited id A hA
    refine ⟨?_, h2⟩
    by_cases hAacc : A = acc
    · subst hAacc; simp
    · rwa [upd_ne _ _ hAacc]
  · intro id hid
    simpa using hInv.fresh id hid
  · intro id
    obtain ⟨l, hnd, hmem, hcnt, hnone, hsome⟩ := hInv.approvals id
    refine ⟨l, hnd, by simpa using hmem, by simpa using hcnt,
      by simpa using hnone, ?_⟩
    intro A t' hA ht'
    simp only [applyInit_recTarget] at hA
    simp only [applyInit_threshold] at ht'
    have hAi : s.inited A = true := (hInv.target_inited id A hA).1
    have hAacc : A ≠ acc := fun h => by rw [h, hni] at hAi; cases hAi
    rw [upd_ne _ _ hAacc] at ht'
    simpa using hsome A t' hA ht'
  · intro id g hmem
    simp only [applyInit_recoveriesOf] at hmem
    obtain ⟨A, gs', h1, h2, h3⟩ := hInv.mem_rec id g hmem
    have hAi : s.inited A = true := (hInv.target_inited id A h1).1
    have hAacc : A ≠ acc := fun h => by rw [h, hni] at hAi; cases hAi
    exact ⟨A, gs', by simpa using h1,
      by simp only [applyInit_guardians]; rwa [upd_ne _ _ hAacc], h3⟩
  · intro id hfin g
    simp only [applyInit_recFinalized] at hfin
    simpa using hInv.fin_removed id hfin g

theorem Inv_applyStart {s : State} (hInv : Inv s) (acc : Account)
    (nk : PubKey) (hi : s.inited acc = true) (ha : s.activeId acc = none) :
    Inv (applyStart acc nk s) := by
  obtain ⟨gs0, t0, hg0, ht0, hbounds⟩ := hInv.acct acc hi
  have hfreshn := hInv.fresh (s.counter + 1) (Nat.lt_succ_self _)
  constructor
  · intro A hA
    simp only [applyStart_inited, applyStart_guardians,
      applyStart_threshold] at *
    exact hInv.acct A hA
  · intro A hA
    simp only [applyStart_inited, applyStart_guardians, applyStart_threshold,
      applyStart_activeId] at *
    obtain ⟨h1, h2, h3⟩ := hInv.not_inited A hA
    have hAacc : A ≠ acc := fun h => by rw [h, hi] at hA; cases hA
    exact ⟨h1, h2, by rwa [upd_ne _ _ hAacc]⟩
  · intro id A hA
    simp only [applyStart_recTarget, applyStart_inited,
      applyStart_activeId] at *
    by_cases hid : id = s.counter + 1
    · subst hid
      rw [upd_same] at hA
      obtain rfl : acc = A := by simpa using hA
      exact ⟨hi, by simp⟩
    · rw [upd_ne _ _ hid] at hA
      obtain ⟨h1, h2⟩ := hInv.target_inited id A hA
      refine ⟨h1, ?_⟩
      by_cases hAacc : A = acc
      · subst hAacc; simp
      · rwa [upd_ne _ _ hAacc]
  · intro id hid
    simp only [applyStart_counter] at hid
    simp only [applyStart_recTarget, applyStart_recFinalized]
    have hne : id ≠ s.counter + 1 := by omega
    rw [upd_ne _ _ hne]
    exact hInv.fresh id (by omega)
  · intro id
    by_cases hid : id = s.counter + 1
    · subst hid
      obtain ⟨l, _, hm, _, hnone, _⟩ := hInv.approvals (s.counter + 1)
      obtain ⟨rfl, _⟩ := hnone hfreshn.1
      refine ⟨[], List.nodup_nil, ?_, ?_, ?_, ?_⟩
      · intro g
        simpa using hm g
      · simp only [applyStart_recCnt, upd_same]
        simp
      · intro h
        simp only [applyStart_recTarget, upd_same] at h
        cases h
      · intro A t hA ht
        simp only [applyStart_recTarget, upd_same] at hA
        obtain rfl : acc = A := by simpa using hA
        simp only [applyStart_threshold] at ht
        rw [ht0] at ht
        obtain rfl : t0 = t := by simpa using ht
        simp only [applyStart_recApproved, upd_same, List.length_nil]
        constructor
        · intro h; cases h
        · intro h; omega
    · obtain ⟨l, hnd, hm, hcnt, hnone, hsome⟩ := hInv.approvals id
      refine ⟨l, hnd, ?_, ?_, ?_, ?_⟩
      · intro g
        simpa using hm g
      · simp only [applyStart_recCnt]
        rwa [upd_ne _ _ hid]
      · intro h
        simp only [applyStart_recTarget] at h
        rw [upd_ne _ _ hid] at h
        simp only [applyStart_recApproved]
        rw [upd_ne _ _ hid]
        exact hnone h
      · intro A t hA ht
        simp only [applyStart_recTarget] at hA
        rw [upd_ne _ _ hid] at hA
        simp only [applyStart_threshold] at ht
        simp only [applyStart_recApproved]
        rw [upd_ne _ _ hid]
        exact hsome A t hA ht
  · intro id g hmem
    simp only [applyStart_recoveriesOf] at hmem
    rcases addRecovery_mem_imp _ _ _ _ _ hmem with hold | ⟨rfl, hgl⟩
    · obtain ⟨A, gs', h1, h2, h3⟩ := hInv.mem_rec id g hold
      have hid : id ≠ s.counter + 1 := by
        intro h
        rw [h, hfreshn.1] at h1
        cases h1
      simp only [applyStart_recTarget, applyStart_guardians]
      exact ⟨A, gs', by rwa [upd_ne _ _ hid], h2, h3⟩
    · rw [hg0] at hgl
      simp only [Option.getD_some] at hgl
      simp only [applyStart_recTarget, applyStart_guardians]
      exact ⟨acc, gs0, by rw [upd_same], hg0, hgl⟩
  · intro id hfin g
    simp only [applyStart_recFinalized] at hfin
    have hid : id ≠ s.counter + 1 := by
      intro h
      rw [h, hfreshn.2] at hfin
      cases hfin
    intro hmem
    simp only [applyStart_recoveriesOf] at hmem
    rcases addRecovery_mem_imp _ _ _ _ _ hmem with hold | ⟨h, _⟩
    · exact hInv.fin_removed id hfin g hold
    · exact hid h

theorem Inv_applyApprove {s : State} (hInv : Inv s) (caller : Account)
    (id : Nat) (acc : Account)
    (htar : s.recTarget id = some acc)
    (hnew : s.approvedBy id caller = false) :
    Inv (applyApprove caller id acc s) := by
  obtain ⟨hacc_i, _⟩ := hInv.target_inited id acc htar
  obtain ⟨gs0, t0, hg0, ht0, hb1, hb2, hb3, hb4⟩ := hInv.acct acc hacc_i
  constructor
  · intro A hA
    simpa using hInv.acct A (by simpa using hA)
  · intro A hA
    simpa using hInv.not_inited A (by simpa using hA)
  · intro id2 A hA
    simpa using hInv.target_inited id2 A (by simpa using hA)
  · intro id2 hid2
    simpa using hInv.fresh id2 (by simpa using hid2)
  · intro id2
    by_cases hid : id2 = id
    · subst hid
      obtain ⟨l, hnd, hm, hcnt, _, hsome⟩ := hInv.approvals id2
      have hcal : caller ∉ l := fun h => by rw [(hm caller).mpr h] at hnew; cases hnew
      refine ⟨caller :: l, List.nodup_cons.mpr ⟨hcal, hnd⟩, ?_, ?_, ?_, ?_⟩
      · intro g
        simp only [applyApprove_approvedBy, upd_same]
        rw [upd_apply]
        by_cases hgc : g = caller
        · subst hgc; simp
        · simp only [if_neg hgc, List.mem_cons]
          rw [hm g]
          exact ⟨fun h => Or.inr h, fun h => h.resolve_left hgc⟩
      · simp only [applyApprove_recCnt, upd_same, List.length_cons]
        omega
      · intro h
        simp only [applyApprove_recTarget] at h
        rw [htar] at h
        cases h
      · intro A t hA ht
        simp only [applyApprove_recTarget] at hA
        rw [htar] at hA
        obtain rfl : acc = A := by simpa using hA
        simp only [applyApprove_threshold] at ht
        rw [ht0] at ht
        obtain rfl : t0 = t := by simpa using ht
        have hold := hsome acc t0 htar ht0
        simp only [applyApprove_recApproved, ht0, Option.getD_some,
          List.length_cons]
        by_cases hcond : t0 ≤ (s.recCnt id2 + 1) % 256
        · rw [if_pos hcond, upd_same]
          simp only [true_iff]
          omega
        · rw [if_neg hcond]
          rw [hold]
          omega
    · obtain ⟨l, hnd, hm, hcnt, hnone, hsome⟩ := hInv.approvals id2
      refine ⟨l, hnd, ?_, ?_, ?_, ?_⟩
      · intro g
        simp only [applyApprove_approvedBy]
        rw [upd_ne _ _ hid]
        exact hm g
      · simp only [applyApprove_recCnt]
        rwa [upd_ne _ _ hid]
      · intro h
        simp only [applyApprove_recTarget] at h
        simp only [applyApprove_recApproved]
        obtain ⟨h1, h2⟩ := hnone h
        refine ⟨h1, ?_⟩
        split
        · rwa [upd_ne _ _ hid]
        · exact h2
      · intro A t hA ht
        simp only [applyApprove_recTarget] at hA
        simp only [applyApprove_threshold] at ht
        simp only [applyApprove_recApproved]
        have := hsome A t hA ht
        split
        · rwa [upd_ne _ _ hid]
        · exact this
  · intro id2 g hmem
    simpa using hInv.mem_rec id2 g (by simpa using hmem)
  · intro id2 hfin g
    simpa using hInv.fin_removed id2 (by simpa using hfin) g

theorem Inv_applyFinalize {s : State} (hInv : Inv s) (id : Nat)
    (acc : Account) (htar : s.recTarget id = some acc) :
    Inv (applyFinalize id acc s) := by
  obtain ⟨hacc_i, _⟩ := hInv.target_inited id acc htar
  obtain ⟨gs0, t0, hg0, ht0, _⟩ := hInv.acct acc hacc_i
  have hidle : ¬ s.counter < id := fun h => by
    rw [(hInv.fresh id h).1] at htar
    cases htar
  constructor
  · intro A hA
    simpa using hInv.acct A (by simpa using hA)
  · intro A hA
    simpa using hInv.not_inited A (by simpa using hA)
  · intro id2 A hA
    simpa using hInv.target_inited id2 A (by simpa using hA)
  · intro id2 hid2
    simp only [applyFinalize_counter] at hid2
    obtain ⟨h1, h2⟩ := hInv.fresh id2 hid2
    have hne : id2 ≠ id := by omega
    simp only [applyFinalize_recTarget, applyFinalize_recFinalized]
    rw [upd_ne _ _ hne]
    exact ⟨h1, h2⟩
  · intro id2
    obtain ⟨l, hnd, hm, hcnt, hnone, hsome⟩ := hInv.approvals id2
    exact ⟨l, hnd, by simpa using hm, by simpa using hcnt,
      by simpa using hnone, by simpa using hsome⟩
  · intro id2 g hmem
    simp only [applyFinalize_recoveriesOf] at hmem
    have hold := removeRecovery_subset _ _ _ _ _ hmem
    simpa using hInv.mem_rec id2 g hold
  · intro id2 hfin g
    simp only [applyFinalize_recFinalized] at hfin
    simp only [applyFinalize_recoveriesOf]
    by_cases hid : id2 = id
    · subst hid
      by_cases hgl : g ∈ (s.guardians acc).getD []
      · exact removeRecovery_not_mem _ _ _ _ hgl
      · rw [removeRecovery_apply_of_not_mem _ _ _ _ hgl]
        intro hmem
        obtain ⟨A, gs', h1, h2, h3⟩ := hInv.mem_rec id2 g hmem
        rw [htar] at h1
        obtain rfl : acc = A := by simpa using h1
        rw [hg0] at h2
        obtain rfl : gs0 = gs' := by simpa using h2
        rw [hg0] at hgl
        simp only [Option.getD_some] at hgl
        exact hgl h3
    · rw [upd_ne _ _ hid] at hfin
      intro hmem
      exact hInv.fin_removed id2 hfin g (removeRecovery_subset _ _ _ _ _ hmem)

/-- The invariant is preserved by every invocation. -/
theorem Inv_step {s : State} (hInv : Inv s) (op : Op) :
    Inv (stepState op s) := by
  cases op with
  | initG c a gs t =>
    simp only [stepState]
    cases hr : init_guardians c a gs t.val s with
    | error e => exact hInv
    | ok s1 =>
      obtain ⟨hs1, _, hlen, ht1, ht2, hni⟩ := init_ok hr
      rw [hs1]
      exact Inv_applyInit hInv a gs t.val hlen ht1 ht2
        (by have := t.isLt; omega) hni
  | startR a k =>
    simp only [stepState]
    cases hr : start_recovery a k s with
    | error e => exact hInv
    | ok x =>
      obtain ⟨_, hs, hi, ha, _⟩ := start_ok hr
      show Inv x.2
      rw [hs]
      exact Inv_applyStart hInv a k hi ha
  | approveR c id =>
    simp only [stepState]
    cases hr : approve c id s with
    | error e => exact hInv
    | ok s1 =>
      obtain ⟨acc, guards, htar, _, _, hnew, hs1⟩ := approve_ok hr
      rw [hs1]
      exact Inv_applyApprove hInv c id acc htar hnew
  | finalizeR id =>
    simp only [stepState]
    cases hr : finalize id s with
    | error e => exact hInv
    | ok s1 =>
      obtain ⟨acc, _, htar, hs1⟩ := finalize_ok hr
      rw [hs1]
      exact Inv_applyFinalize hInv id acc htar
  | getGuardiansQ a => exact hInv
  | hasGuardiansQ a => exact hInv
  | isApprovedQ id => exact hInv
  | getRecoveriesQ g => exact hInv
  | getProtectedQ g => exact hInv

theorem Inv_run {s : State} (hInv : Inv s) (ops : List Op) :
    Inv (run s ops) := by
  induction ops generalizing s with
  | nil => exact hInv
  | cons op rest ih =>
    show Inv (run (stepState op s) rest)
    exact ih (Inv_step hInv op)

theorem Reachable.inv {s : State} (h : Reachable s) : Inv s := by
  obtain ⟨ops, rfl⟩ := h
  exact Inv_run Inv_init_state ops

/-! ### Monotone facts: what no invocation can ever undo -/

/-- The initialized flag is never cleared. -/
theorem inited_step {s : State} (op : Op) (A : Account)
    (h : s.inited A = true) : (stepState op s).inited A = true := by
  cases op with
  | initG c a gs t =>
    simp only [stepState]
    cases hr : init_guardians c a gs t.val s with
    | error e => exact h
    | ok s1 =>
      obtain ⟨hs1, _⟩ := init_ok hr
      rw [hs1]
      simp only [applyInit_inited]
      rw [upd_apply]
      split
      · rfl
      · exact h
  | startR a k =>
    simp only [stepState]
    cases hr : start_recovery a k s with
    | error e => exact h
    | ok x =>
      obtain ⟨_, hs, _⟩ := start_ok hr
      show x.2.inited A = true
      rw [hs]
      simpa using h
  | approveR c id =>
    simp only [stepState]
    cases hr : approve c id s with
    | error e => exact h
    | ok s1 =>
      obtain ⟨acc, guards, _, _, _, _, hs1⟩ := approve_ok hr
      rw [hs1]
      simpa using h
  | finalizeR id =>
    simp only [stepState]
    cases hr : finalize id s with
    | error e => exact h
    | ok s1 =>
      obtain ⟨acc, _, _, hs1⟩ := finalize_ok hr
      rw [hs1]
      simpa using h
  | getGuardiansQ a => exact h
  | hasGuardiansQ a => exact h
  | isApprovedQ id => exact h
  | getRecoveriesQ g => exact h
  | getProtectedQ g => exact h

/-- The open-recovery marker, once present, is never removed. -/
theorem activeId_step {s : State} (op : Op) (A : Account)
    (h : (s.activeId A).isSome = true) :
    ((stepState op s).activeId A).isSome = true := by
  cases op with
  | initG c a gs t =>
    simp only [stepState]
    cases hr : init_guardians c a gs t.val s with
    | error e => exact h
    | ok s1 =>
      obtain ⟨hs1, _⟩ := init_ok hr
      rw [hs1]
      simpa using h
  | startR a k =>
    simp only [stepState]
    cases hr : start_recovery a k s with
    | error e => exact h
    | ok x =>
      obtain ⟨_, hs, _⟩ := start_ok hr
      show (x.2.activeId A).isSome = true
      rw [hs]
      simp only [applyStart_activeId]
      rw [upd_apply]
      split
      · simp
      · exact h
  | approveR c id =>
    simp only [stepState]
    cases hr : approve c id s with
    | error e => exact h
    | ok s1 =>
      obtain ⟨acc, guards, _, _, _, _, hs1⟩ := approve_ok hr
      rw [hs1]
      simpa using h
  | finalizeR id =>
    simp only [stepState]
    cases hr : finalize id s with
    | error e => exact h
    | ok s1 =>
      obtain ⟨acc, _, _, hs1⟩ := finalize_ok hr
      rw [hs1]
      simpa using h
  | getGuardiansQ a => exact h
  | hasGuardiansQ a => exact h
  | isApprovedQ id => exact h
  | getRecoveriesQ g => exact h
  | getProtectedQ g => exact h

/-- The counter never decreases. -/
theorem counter_step_le (s : State) (op : Op) :
    s.counter ≤ (stepState op s).counter := by
  cases op with
  | initG c a gs t =>
    simp only [stepState]
    cases hr : init_guardians c a gs t.val s with
    | error e => exact le_refl _
    | ok s1 =>
      obtain ⟨hs1, _⟩ := init_ok hr
      rw [hs1]
      simp
  | startR a k =>
    simp only [stepState]
    cases hr : start_recovery a k s with
    | error e => exact le_refl _
    | ok x =>
      obtain ⟨_, hs, _⟩ := start_ok hr
      show s.counter ≤ x.2.counter
      rw [hs]
      simp
  | approveR c id =>
    simp only [stepState]
    cases hr : approve c id s with
    | error e => exact le_refl _
    | ok s1 =>
      obtain ⟨acc, guards, _, _, _, _, hs1⟩ := approve_ok hr
      rw [hs1]
      simp
  | finalizeR id =>
    simp only [stepState]
    cases hr : finalize id s with
    | error e => exact le_refl _
    | ok s1 =>
      obtain ⟨acc, _, _, hs1⟩ := finalize_ok hr
      rw [hs1]
      simp
  | getGuardiansQ a => exact le_refl _
  | hasGuardiansQ a => exact le_refl _
  | isApprovedQ id => exact le_refl _
  | getRecoveriesQ g => exact le_refl _
  | getProtectedQ g => exact le_refl _

/-- The finalized flag is never cleared. -/
theorem finalized_step {s : State} (op : Op) (id : Nat)
    (h : s.recFinalized id = true) :
    (stepState op s).recFinalized id = true := by
  cases op with
  | initG c a gs t =>
    simp only [stepState]
    cases hr : init_guardians c a gs t.val s with
    | error e => exact h
    | ok s1 =>
      obtain ⟨hs1, _⟩ := init_ok hr
      rw [hs1]
      simpa using h
  | startR a k =>
    simp only [stepState]
    cases hr : start_recovery a k s with
    | error e => exact h
    | ok x =>
      obtain ⟨_, hs, _⟩ := start_ok hr
      show x.2.recFinalized id = true
      rw [hs]
      simpa using h
  | approveR c id2 =>
    simp only [stepState]
    cases hr : approve c id2 s with
    | error e => exact h
    | ok s1 =>
      obtain ⟨acc, guards, _, _, _, _, hs1⟩ := approve_ok hr
      rw [hs1]
      simpa using h
  | finalizeR id2 =>
    simp only [stepState]
    cases hr : finalize id2 s with
    | error e => exact h
    | ok s1 =>
      obtain ⟨acc, _, _, hs1⟩ := finalize_ok hr
      rw [hs1]
      simp only [applyFinalize_recFinalized]
      rw [upd_apply]
      split
      · rfl
      · exact h
  | getGuardiansQ a => exact h
  | hasGuardiansQ a => exact h
  | isApprovedQ id2 => exact h
  | getRecoveriesQ g => exact h
  | getProtectedQ g => exact h

/-- In reachable states the approved flag is monotone: no invocation unsets
it (`start_recovery` only ever writes `false` to a fresh id). -/
theorem approved_step {s : State} (hInv : Inv s) (op : Op) (id : Nat)
    (h : s.recApproved id = true) :
    (stepState op s).recApproved id = true := by
  cases op with
  | initG c a gs t =>
    simp only [stepState]
    cases hr : init_guardians c a gs t.val s with
    | error e => exact h
    | ok s1 =>
      obtain ⟨hs1, _⟩ := init_ok hr
      rw [hs1]
      simpa using h
  | startR a k =>
    simp only [stepState]
    cases hr : start_recovery a k s with
    | error e => exact h
    | ok x =>
      obtain ⟨_, hs, _⟩ := start_ok hr
      show x.2.recApproved id = true
      rw [hs]
      simp only [applyStart_recApproved]
      have hne : id ≠ s.counter + 1 := by
        intro heq
        obtain ⟨l, _, _, _, hnone, _⟩ := hInv.approvals id
        obtain ⟨_, hfalse⟩ :=
          hnone (heq ▸ (hInv.fresh (s.counter + 1) (Nat.lt_succ_self _)).1)
        rw [hfalse] at h
        cases h
      rwa [upd_ne _ _ hne]
  | approveR c id2 =>
    simp only [stepState]
    cases hr : approve c id2 s with
    | error e => exact h
    | ok s1 =>
      obtain ⟨acc, guards, _, _, _, _, hs1⟩ := approve_ok hr
      rw [hs1]
      simp only [applyApprove_recApproved]
      split
      · rw [upd_apply]
        split
        · rfl
        · exact h
      · exact h
  | finalizeR id2 =>
    simp only [stepState]
    cases hr : finalize id2 s with
    | error e => exact h
    | ok s1 =>
      obtain ⟨acc, _, _, hs1⟩ := finalize_ok hr
      rw [hs1]
      simpa using h
  | getGuardiansQ a => exact h
  | hasGuardiansQ a => exact h
  | isApprovedQ id2 => exact h
  | getRecoveriesQ g => exact h
  | getProtectedQ g => exact h

/-- In reachable states a recovery's stored target never changes. -/
theorem target_step {s : State} (hInv : Inv s) (op : Op) (id : Nat)
    {A : Account} (h : s.recTarget id = some A) :
    (stepState op s).recTarget id = some A := by
  cases op with
  | initG c a gs t =>
    simp only [stepState]
    cases hr : init_guardians c a gs t.val s with
    | error e => exact h
    | ok s1 =>
      obtain ⟨hs1, _⟩ := init_ok hr
      rw [hs1]
      simpa using h
  | startR a k =>
    simp only [stepState]
    cases hr : start_recovery a k s with
    | error e => exact h
    | ok x =>
      obtain ⟨_, hs, _⟩ := start_ok hr
      show x.2.recTarget id = some A
      rw [hs]
      simp only [applyStart_recTarget]
      have hne : id ≠ s.counter + 1 := by
        intro heq
        rw [heq, (hInv.fresh (s.counter + 1) (Nat.lt_succ_self _)).1] at h
        cases h
      rwa [upd_ne _ _ hne]
  | approveR c id2 =>
    simp only [stepState]
    cases hr : approve c id2 s with
    | error e => exact h
    | ok s1 =>
      obtain ⟨acc, guards, _, _, _, _, hs1⟩ := approve_ok hr
      rw [hs1]
      simpa using h
  | finalizeR id2 =>
    simp only [stepState]
    cases hr : finalize id2 s with
    | error e => exact h
    | ok s1 =>
      obtain ⟨acc, _, _, hs1⟩ := finalize_ok hr
      rw [hs1]
      simpa using h
  | getGuardiansQ a => exact h
  | hasGuardiansQ a => exact h
  | isApprovedQ id2 => exact h
  | getRecoveriesQ g => exact h
  | getProtectedQ g => exact h

theorem inited_run {s : State} (ops : List Op) (A : Account)
    (h : s.inited A = true) : (run s ops).inited A = true := by
  induction ops generalizing s with
  | nil => exact h
  | cons op rest ih =>
    show (run (stepState op s) rest).inited A = true
    exact ih (inited_step op A h)

theorem activeId_run {s : State} (ops : List Op) (A : Account)
    (h : (s.activeId A).isSome = true) :
    ((run s ops).activeId A).isSome = true := by
  induction ops generalizing s with
  | nil => exact h
  | cons op rest ih =>
    show ((run (stepState op s) rest).activeId A).isSome = true
    exact ih (activeId_step op A h)

theorem counter_run_le (s : State) (ops : List Op) :
    s.counter ≤ (run s ops).counter := by
  induction ops generalizing s with
  | nil => exact le_refl _
  | cons op rest ih =>
    show s.counter ≤ (run (stepState op s) rest).counter
    exact le_trans (counter_step_le s op) (ih (stepState op s))

theorem finalized_run {s : State} (ops : List Op) (id : Nat)
    (h : s.recFinalized id = true) :
    (run s ops).recFinalized id = true := by
  induction ops generalizing s with
  | nil => exact h
  | cons op rest ih =>
    show (run (stepState op s) rest).recFinalized id = true
    exact ih (finalized_step op id h)

theorem approved_run {s : State} (hInv : Inv s) (ops : List Op) (id : Nat)
    (h : s.recApproved id = true) :
    (run s ops).recApproved id = true := by
  induction ops generalizing s with
  | nil => exact h
  | cons op rest ih =>
    show (run (stepState op s) rest).recApproved id = true
    exact ih (Inv_step hInv op) (approved_step hInv op id h)

theorem target_run {s : State} (hInv : Inv s) (ops : List Op) (id : Nat)
    {A : Account} (h : s.recTarget id = some A) :
    (run s ops).recTarget id = some A := by
  induction ops generalizing s with
  | nil => exact h
  | cons op rest ih =>
    show (run (stepState op s) rest).recTarget id = some A
    exact ih (Inv_step hInv op) (target_step hInv op id h)

/-- Only `start_recovery` can change the counter. -/
theorem counter_step_of_not_start (op : Op) (s : State)
    (h : op.isStart = false) : (stepState op s).counter = s.counter := by
  cases op with
  | startR a k => simp [Op.isStart] at h
  | initG c a gs t =>
    simp only [stepState]
    cases hr : init_guardians c a gs t.val s with
    | error e => rfl
    | ok s1 =>
      obtain ⟨hs1, _⟩ := init_ok hr
      rw [hs1]
      simp
  | approveR c id =>
    simp only [stepState]
    cases hr : approve c id s with
    | error e => rfl
    | ok s1 =>
      obtain ⟨acc, guards, _, _, _, _, hs1⟩ := approve_ok hr
      rw [hs1]
      simp
  | finalizeR id =>
    simp only [stepState]
    cases hr : finalize id s with
    | error e => rfl
    | ok s1 =>
      obtain ⟨acc, _, _, hs1⟩ := finalize_ok hr
      rw [hs1]
      simp
  | getGuardiansQ a => rfl
  | hasGuardiansQ a => rfl
  | isApprovedQ id => rfl
  | getRecoveriesQ g => rfl
  | getProtectedQ g => rfl

theorem counter_run_of_no_start (s : State) (ops : List Op)
    (h : ∀ op ∈ ops, op.isStart = false) :
    (run s ops).counter = s.counter := by
  induction ops generalizing s with
  | nil => rfl
  | cons op rest ih =>
    show (run (stepState op s) rest).counter = s.counter
    rw [ih _ (fun o ho => h o (List.mem_cons_of_mem _ ho)),
      counter_step_of_not_start op s (h op (List.mem_cons_self _ _))]

/-- Only an `init_guardians` call for `A` itself can change `A`'s
initialized flag. -/
theorem inited_step_of_not_init_for (op : Op) (s : State) (A : Account)
    (h : op.isInitFor A = false) :
    (stepState op s).inited A = s.inited A := by
  cases op with
  | initG c a gs t =>
    have hne : a ≠ A := by simpa [Op.isInitFor] using h
    simp only [stepState]
    cases hr : init_guardians c a gs t.val s with
    | error e => rfl
    | ok s1 =>
      obtain ⟨hs1, _⟩ := init_ok hr
      rw [hs1]
      simp only [applyInit_inited]
      exact upd_ne _ _ (fun hAa => hne hAa.symm)
  | startR a k =>
    simp only [stepState]
    cases hr : start_recovery a k s with
    | error e => rfl
    | ok x =>
      obtain ⟨_, hs, _⟩ := start_ok hr
      show x.2.inited A = s.inited A
      rw [hs]
      simp
  | approveR c id =>
    simp only [stepState]
    cases hr : approve c id s with
    | error e => rfl
    | ok s1 =>
      obtain ⟨acc, guards, _, _, _, _, hs1⟩ := approve_ok hr
      rw [hs1]
      simp
  | finalizeR id =>
    simp only [stepState]
    cases hr : finalize id s with
    | error e => rfl
    | ok s1 =>
      obtain ⟨acc, _, _, hs1⟩ := finalize_ok hr
      rw [hs1]
      simp
  | getGuardiansQ a => rfl
  | hasGuardiansQ a => rfl
  | isApprovedQ id => rfl
  | getRecoveriesQ g => rfl
  | getProtectedQ g => rfl

theorem inited_run_of_no_init_for (s : State) (ops : List Op) (A : Account)
    (h : ∀ op ∈ ops, op.isInitFor A = false) :
    (run s ops).inited A = s.inited A := by
  induction ops generalizing s with
  | nil => rfl
  | cons op rest ih =>
    show (run (stepState op s) rest).inited A = s.inited A
    rw [ih _ (fun o ho => h o (List.mem_cons_of_mem _ ho)),
      inited_step_of_not_init_for op s A (h op (List.mem_cons_self _ _))]

/-! ### The claims -/

/-- Claim C1: after a successful `finalize id` for a recovery targeting
account `A`, every subsequent `start_recovery A k` — after any further
sequence of invocations — fails with `RecoveryExists`: `finalize` never
clears the per-account open-recovery marker, and no invocation ever removes
it, so the account can never start another recovery. -/
theorem C1_finalize_blocks_future_recovery
    (s sf : State) (id : Nat) (A : Account) (k : PubKey) (ops : List Op)
    (hreach : Reachable s) (hA : s.recTarget id = some A)
    (hfin : finalize id s = .ok sf) :
    start_recovery A k (run sf ops) = .error (.user .RecoveryExists) := by
  have hInv := hreach.inv
  obtain ⟨acc, hro, htar, hsf⟩ := finalize_ok hfin
  rw [htar] at hA
  obtain rfl : A = acc := (Option.some.inj hA).symm
  obtain ⟨hiA, haA⟩ := hInv.target_inited id A htar
  have hiA2 : sf.inited A = true := by rw [hsf]; simpa using hiA
  have haA2 : (sf.activeId A).isSome = true := by rw [hsf]; simpa using haA
  have hiu : (run sf ops).inited A = true := inited_run ops A hiA2
  have hau : ((run sf ops).activeId A).isSome = true := activeId_run ops A haA2
  unfold start_recovery
  rw [if_neg (by simp [hiu]), if_pos hau]

theorem C1_witness :
    start_recovery 1 7 (run wFinSt []) = .error (.user .RecoveryExists) :=
  C1_finalize_blocks_future_recovery wState1 wFinSt 1 1 7 []
    ⟨wOps1, rfl⟩ (by decide) (by rfl)

/-- Claim C2 (amended): in every reachable state the per-guardian approval
marks of a recovery form a duplicate-free set `l`; the stored
`approval_count` is an 8-bit counter, so it equals the size of that set
modulo 256 (hence equals it exactly only while at most 255 distinct
guardians have approved); the approved flag is true iff the number of
distinct approvers reached the target account's threshold; once true it is
never unset by any later sequence of invocations; and `is_approved` returns
exactly the stored flag, `false` for an id that does not exist. -/
theorem C2_approval_accounting (s : State) (hreach : Reachable s)
    (id : Nat) :
    (∃ l : List Account, l.Nodup ∧
      (∀ g, s.approvedBy id g = true ↔ g ∈ l) ∧
      s.recCnt id = l.length % 256 ∧
      (∀ A t, s.recTarget id = some A → s.threshold A = some t →
        (s.recApproved id = true ↔ t ≤ l.length))) ∧
    (∀ ops, s.recApproved id = true →
      (run s ops).recApproved id = true) ∧
    is_approved id s = s.recApproved id ∧
    (s.recTarget id = none → is_approved id s = false) := by
  have hInv := hreach.inv
  obtain ⟨l, hnd, hm, hcnt, hnone, hsome⟩ := hInv.approvals id
  refine ⟨⟨l, hnd, hm, hcnt, hsome⟩, ?_, rfl, ?_⟩
  · intro ops h
    exact approved_run hInv ops id h
  · intro h
    exact (hnone h).2

theorem C2_witness :
    (∃ l : List Account, l.Nodup ∧
      (∀ g, wState1.approvedBy 1 g = true ↔ g ∈ l) ∧
      wState1.recCnt 1 = l.length % 256 ∧
      (∀ A t, wState1.recTarget 1 = some A → wState1.threshold A = some t →
        (wState1.recApproved 1 = true ↔ t ≤ l.length))) ∧
    (∀ ops, wState1.recApproved 1 = true →
      (run wState1 ops).recApproved 1 = true) ∧
    is_approved 1 wState1 = wState1.recApproved 1 ∧
    (wState1.recTarget 1 = none → is_approved 1 wState1 = false) :=
  C2_approval_accounting wState1 ⟨wOps1, rfl⟩ 1

set_option maxRecDepth 100000 in
/-- Claim C2, as stated, is false: after the 256 distinct guardians of
`cexOps` each approve recovery 1, the stored `u8` approval counter has
wrapped around to 0, so no list of approvers can make "`approval_count`
equals the number of distinct guardians that have approved" true (guardian
10 has approved, so the count of approvers is positive). -/
theorem C2_counterexample :
    cexState.approvedBy 1 10 = true ∧
    ¬ ∃ l : List Account,
        (∀ g, cexState.approvedBy 1 g = true ↔ g ∈ l) ∧
        cexState.recCnt 1 = l.length := by
  have h10 : cexState.approvedBy 1 10 = true := by decide
  have hcnt : cexState.recCnt 1 = 0 := by decide
  refine ⟨h10, ?_⟩
  rintro ⟨l, hm, hlen⟩
  have hmem : (10 : Account) ∈ l := (hm 10).mp h10
  have hne : l.length ≠ 0 := by
    intro h
    rw [List.length_eq_zero] at h
    subst h
    cases hmem
  rw [hcnt] at hlen
  exact hne hlen.symm

/-- Claim C3: recovery ids are strictly increasing across any two successful
`start_recovery` calls (hence globally unique, for any two accounts), and
the first `start_recovery` ever — after any invocations none of which is a
`start_recovery` — returns id 1 (increment-then-use from 0). -/
theorem C3_ids_strictly_increasing :
    (∀ (s : State) (ops : List Op) (A1 : Account) (k1 : PubKey) (id1 : Nat)
        (s1 : State) (A2 : Account) (k2 : PubKey) (id2 : Nat) (s2 : State),
      start_recovery A1 k1 s = .ok (id1, s1) →
      start_recovery A2 k2 (run s1 ops) = .ok (id2, s2) →
      id1 < id2) ∧
    (∀ (ops : List Op) (A : Account) (k : PubKey) (id : Nat) (s2 : State),
      (∀ op ∈ ops, op.isStart = false) →
      start_recovery A k (run init_state ops) = .ok (id, s2) →
      id = 1) := by
  constructor
  · intro s ops A1 k1 id1 s1 A2 k2 id2 s2 h1 h2
    obtain ⟨e1, e1s, _⟩ := start_ok h1
    obtain ⟨e2, _⟩ := start_ok h2
    have h11 : id1 = s.counter + 1 := e1
    have hs1c : s1.counter = s.counter + 1 := by
      have : s1 = applyStart A1 k1 s := e1s
      rw [this]
      simp
    have hle := counter_run_le s1 ops
    have h22 : id2 = (run s1 ops).counter + 1 := e2
    omega
  · intro ops A k id s2 hops h
    have hc := counter_run_of_no_start init_state ops hops
    have h1 : id = (run init_state ops).counter + 1 := (start_ok h).1
    rw [hc] at h1
    exact h1

theorem C3_witness : (1 : Nat) < 2 ∧ (1 : Nat) = 1 :=
  ⟨C3_ids_strictly_increasing.1 w3a [] 1 7 1 w3b 4 8 2 w3c
      (by rfl) (by rfl),
   C3_ids_strictly_increasing.2 [.initG 1 1 [2, 3] 1] 1 7 1
      (stepState (.startR 1 7) (run init_state [.initG 1 1 [2, 3] 1]))
      (by decide) (by rfl)⟩

/-- Claim C4: `finalize id` fails with `NotApproved` whenever the approved
flag is not set (in particular for an id that does not exist); in a
reachable state with the flag set it succeeds, and afterwards `id` is absent
from `get_recoveries_for_guardian g` for every guardian `g` of the request's
target account. -/
theorem C4_finalize_behavior (id : Nat) :
    (∀ s : State, s.recApproved id = false →
      finalize id s = .error (.user .NotApproved)) ∧
    (∀ s : State, Reachable s → s.recApproved id = true →
      ∃ sf, finalize id s = .ok sf ∧
        ∀ A gs, s.recTarget id = some A → s.guardians A = some gs →
          ∀ g ∈ gs, id ∉ get_recoveries_for_guardian g sf) := by
  constructor
  · intro s h
    unfold finalize
    rw [if_pos h]
  · intro s hreach hro
    have hInv := hreach.inv
    obtain ⟨l, _, _, _, hnone, _⟩ := hInv.approvals id
    cases htar : s.recTarget id with
    | none =>
      rw [(hnone htar).2] at hro
      cases hro
    | some acc =>
      refine ⟨applyFinalize id acc s, finalize_of_approved hro htar, ?_⟩
      intro A gs hA hgs g hg
      obtain rfl : A = acc := (Option.some.inj hA).symm
      have hInv2 := Inv_applyFinalize hInv id A htar
      have hfin : (applyFinalize id A s).recFinalized id = true := by simp
      exact hInv2.fin_removed id hfin g

theorem C4_witness :
    finalize 1 init_state = .error (.user .NotApproved) ∧
    (∃ sf, finalize 1 wState1 = .ok sf ∧
      ∀ A gs, wState1.recTarget 1 = some A → wState1.guardians A = some gs →
        ∀ g ∈ gs, 1 ∉ get_recoveries_for_guardian g sf) :=
  ⟨(C4_finalize_behavior 1).1 init_state (by rfl),
   (C4_finalize_behavior 1).2 wState1 ⟨wOps1, rfl⟩ (by decide)⟩

/-- Claim C5: a second `approve` by a guardian who already approved fails
with `AlreadyApproved`, and the rejected invocation leaves the store
unchanged. -/
theorem C5_double_approve_rejected (caller : Account) (id : Nat)
    (s s1 : State) (h : approve caller id s = .ok s1) :
    approve caller id s1 = .error (.user .AlreadyApproved) ∧
    run s1 [.approveR caller id] = s1 := by
  obtain ⟨acc, guards, htar, hg, hmem, _, hs1⟩ := approve_ok h
  have htar1 : s1.recTarget id = some acc := by rw [hs1]; simpa using htar
  have hg1 : s1.guardians acc = some guards := by rw [hs1]; simpa using hg
  have happ1 : s1.approvedBy id caller = true := by
    rw [hs1]
    simp
  have herr : approve caller id s1 = .error (.user .AlreadyApproved) := by
    unfold approve
    simp [htar1, hg1, hmem, happ1]
  refine ⟨herr, ?_⟩
  show stepState (.approveR caller id) s1 = s1
  simp only [stepState]
  rw [herr]

theorem C5_witness :
    approve 2 1 w5b = .error (.user .AlreadyApproved) ∧
    run w5b [.approveR 2 1] = w5b :=
  C5_double_approve_rejected 2 1 w5a w5b (by rfl)

/-- Claim C6: `init_guardians` fails with `NotOwner` for any caller other
than the account; for the owner it fails with `BadGuardians` on lists
shorter than 2, and with `BadThreshold` on a threshold of 0 or above the
list length (the checks run in that order). -/
theorem C6_init_guardians_checks (caller acc : Account)
    (guards : List Account) (thresh : Nat) (s : State) :
    (caller ≠ acc →
      init_guardians caller acc guards thresh s =
        .error (.user .NotOwner)) ∧
    (caller = acc → guards.length < 2 →
      init_guardians caller acc guards thresh s =
        .error (.user .BadGuardians)) ∧
    (caller = acc → 2 ≤ guards.length →
      (thresh = 0 ∨ guards.length < thresh) →
      init_guardians caller acc guards thresh s =
        .error (.user .BadThreshold)) := by
  refine ⟨?_, ?_, ?_⟩
  · intro h
    unfold init_guardians
    rw [if_pos h]
  · intro h1 h2
    unfold init_guardians
    rw [if_neg (by simp [h1]), if_pos h2]
  · intro h1 h2 h3
    unfold init_guardians
    rw [if_neg (by simp [h1]), if_neg (by omega), if_pos h3]

theorem C6_witness :
    init_guardians 1 2 [3, 4] 1 init_state = .error (.user .NotOwner) ∧
    init_guardians 1 1 [3] 1 init_state = .error (.user .BadGuardians) ∧
    init_guardians 1 1 [3, 4] 0 init_state =
      .error (.user .BadThreshold) ∧
    init_guardians 1 1 [3, 4] 3 init_state =
      .error (.user .BadThreshold) :=
  ⟨(C6_init_guardians_checks 1 2 [3, 4] 1 init_state).1 (by decide),
   (C6_init_guardians_checks 1 1 [3] 1 init_state).2.1 rfl (by decide),
   (C6_init_guardians_checks 1 1 [3, 4] 0 init_state).2.2 rfl (by decide)
     (Or.inl rfl),
   (C6_init_guardians_checks 1 1 [3, 4] 3 init_state).2.2 rfl (by decide)
     (Or.inr (by decide))⟩

/-- Claim C7: once an account is initialized, a second (well-formed)
`init_guardians` call for it fails with `AlreadyInit`; the rejected
invocation changes nothing and the first call's stored guardian list,
threshold and initialized flag are intact. -/
theorem C7_reinit_rejected (acc : Account) (gs1 : List Account) (t1 : Nat)
    (s s1 : State) (h : init_guardians acc acc gs1 t1 s = .ok s1)
    (caller2 : Account) (gs2 : List Account) (t2 : Fin 256)
    (hc : caller2 = acc) (hlen : 2 ≤ gs2.length)
    (ht : 1 ≤ t2.val ∧ t2.val ≤ gs2.length) :
    init_guardians caller2 acc gs2 t2.val s1 =
      .error (.user .AlreadyInit) ∧
    stepState (.initG caller2 acc gs2 t2) s1 = s1 ∧
    s1.guardians acc = some gs1 ∧ s1.threshold acc = some t1 ∧
    s1.inited acc = true := by
  obtain ⟨hs1, _⟩ := init_ok h
  have hinit : s1.inited acc = true := by rw [hs1]; simp
  have herr : init_guardians caller2 acc gs2 t2.val s1 =
      .error (.user .AlreadyInit) := by
    unfold init_guardians
    rw [if_neg (by simp [hc]), if_neg (by omega), if_neg (by omega),
      if_pos hinit]
  refine ⟨herr, ?_, ?_, ?_, hinit⟩
  · simp only [stepState]
    rw [herr]
  · rw [hs1]
    simp
  · rw [hs1]
    simp

theorem C7_witness :
    init_guardians 1 1 [4, 5, 6] 1 w7a = .error (.user .AlreadyInit) ∧
    stepState (.initG 1 1 [4, 5, 6] 1) w7a = w7a ∧
    w7a.guardians 1 = some [2, 3] ∧ w7a.threshold 1 = some 2 ∧
    w7a.inited 1 = true :=
  C7_reinit_rejected 1 [2, 3] 2 init_state w7a (by rfl) 1 [4, 5, 6] 1 rfl
    (by decide) (by decide)

/-- Claim C8: `start_recovery` fails with `NotInit` on an account whose
initialized flag is unset, and with `RecoveryExists` on a (reachable)
account whose open-recovery marker is present. -/
theorem C8_start_recovery_checks (A : Account) (k : PubKey) :
    (∀ s : State, s.inited A = false →
      start_recovery A k s = .error (.user .NotInit)) ∧
    (∀ s : State, Reachable s → (s.activeId A).isSome = true →
      start_recovery A k s = .error (.user .RecoveryExists)) := by
  constructor
  · intro s h
    unfold start_recovery
    rw [if_pos h]
  · intro s hreach ha
    have hInv := hreach.inv
    have hi : s.inited A = true := by
      cases hb : s.inited A
      · rw [(hInv.not_inited A hb).2.2] at ha
        cases ha
      · rfl
    unfold start_recovery
    rw [if_neg (by simp [hi]), if_pos ha]

theorem C8_witness :
    start_recovery 5 7 init_state = .error (.user .NotInit) ∧
    start_recovery 1 8 w8a = .error (.user .RecoveryExists) :=
  ⟨(C8_start_recovery_checks 5 7).1 init_state rfl,
   (C8_start_recovery_checks 1 8).2 w8a
     ⟨[.initG 1 1 [2, 3] 1, .startR 1 7], rfl⟩ (by decide)⟩

/-- Claim C9: after a successful `init_guardians`, the account appears in
`get_protected_accounts g` for every guardian `g` of the list and
`has_guardians` returns `true`; for an account never targeted by an
`init_guardians` call, `has_guardians` returns `false` without failing. -/
theorem C9_init_guardians_effects :
    (∀ (caller acc : Account) (gs : List Account) (t : Nat) (s s1 : State),
      init_guardians caller acc gs t s = .ok s1 →
      (∀ g ∈ gs, acc ∈ get_protected_accounts g s1) ∧
      has_guardians acc s1 = true) ∧
    (∀ (A : Account) (ops : List Op),
      (∀ op ∈ ops, op.isInitFor A = false) →
      has_guardians A (run init_state ops) = false) := by
  constructor
  · intro caller acc gs t s s1 h
    obtain ⟨hs1, _⟩ := init_ok h
    constructor
    · intro g hg
      show acc ∈ s1.protectedOf g
      rw [hs1]
      simp only [applyInit_protectedOf]
      exact addProtected_mem_of acc gs s.protectedOf g hg
    · show s1.inited acc = true
      rw [hs1]
      simp
  · intro A ops h
    show (run init_state ops).inited A = false
    rw [inited_run_of_no_init_for init_state ops A h]
    rfl

def w9a : State := stepState (.initG 1 1 [2, 3, 4] 2) init_state

theorem C9_witness :
    ((∀ g ∈ [2, 3, 4], (1 : Account) ∈ get_protected_accounts g w9a) ∧
      has_guardians 1 w9a = true) ∧
    has_guardians 9 (run init_state wOps1) = false :=
  ⟨C9_init_guardians_effects.1 1 1 [2, 3, 4] 2 init_state w9a (by rfl),
   C9_init_guardians_effects.2 9 wOps1 (by decide)⟩

/-- Claim C10: a recovery that was successfully finalized can be finalized
again at any later point — there is no "already finalized" failure — and the
repeated call returns the very state it was given, so every
query-observable value is unchanged (`finalize` is observationally
idempotent; the immediate second call is the `ops = []` case). -/
theorem C10_finalize_idempotent (id : Nat) (s sf : State)
    (hreach : Reachable s) (h : finalize id s = .ok sf) :
    ∀ ops : List Op, finalize id (run sf ops) = .ok (run sf ops) := by
  have hInv := hreach.inv
  obtain ⟨acc, hro, htar, hsf⟩ := finalize_ok h
  have hInvf : Inv sf := by
    rw [hsf]
    exact Inv_applyFinalize hInv id acc htar
  have hrof : sf.recApproved id = true := by rw [hsf]; simpa using hro
  have htarf : sf.recTarget id = some acc := by rw [hsf]; simpa using htar
  have hfinf : sf.recFinalized id = true := by rw [hsf]; simp
  intro ops
  have hInvu : Inv (run sf ops) := Inv_run hInvf ops
  have hrou : (run sf ops).recApproved id = true :=
    approved_run hInvf ops id hrof
  have htaru : (run sf ops).recTarget id = some acc :=
    target_run hInvf ops id htarf
  have hfinu : (run sf ops).recFinalized id = true :=
    finalized_run ops id hfinf
  have hnomem : ∀ g, id ∉ (run sf ops).recoveriesOf g :=
    hInvu.fin_removed id hfinu
  rw [finalize_of_approved hrou htaru]
  congr 1
  refine State.ext rfl rfl rfl rfl rfl rfl rfl rfl rfl ?_ rfl rfl ?_
  · exact upd_self _ _ hfinu
  · exact removeRecovery_eq_self id _ _ hnomem

theorem C10_witness :
    finalize 1 (run wFinSt []) = .ok (run wFinSt []) :=
  C10_finalize_idempotent 1 wState1 wFinSt ⟨wOps1, rfl⟩ (by rfl) []

end RecoveryRegistry
